import Mathlib

/-!
Verification of the anky-monorepo LoRA training script
(`src/training/train_flux_lora.py`) against its natural-language
specification.

The development shallowly embeds the parts of the script that the claims
are about:

* the dataset construction of `AnkyDataset.__init__` (directory scan,
  extension globs, caption pairing),
* the per-micro-batch numeric computation of the training objective
  (noise interpolation, timestep discretization, velocity target, MSE),
* the device-placement decision made before the loop,
* the training loop itself (`main`, lines 162-243): gradient
  accumulation, optimizer/scheduler stepping, progress reporting,
  periodic checkpointing, termination, and the final checkpoint write.

Stateful code is embedded as explicit state passing; the unbounded
`while` loop is embedded with fuel (`none` = the loop is still running
after that many passes over the data loader).  External numeric values
(per-batch loss, the scheduler's learning rate) are abstracted as
function parameters; everything structural is transcribed from the
source.
-/

/-! ## Run configuration (`parse_args`, lines 26-40) -/

/-- The run configuration record: one field per recognized command-line
option of `parse_args` (train_flux_lora.py lines 26-40).  `vars(args)`
is what the final checkpoint's `config.json` serializes. -/
structure Args where
  dataset_dir : String
  output_dir : String
  max_train_steps : Nat
  lora_rank : Nat
  learning_rate : ℚ
  resolution : Nat
  batch_size : Nat
  gradient_accumulation : Nat
  save_steps : Nat
  seed : Nat
  gpu_id : Nat
  secondary_gpu_id : Nat
deriving DecidableEq

/-! ## Paired-asset dataset (`AnkyDataset.__init__`, lines 48-70)

A directory entry is modelled structurally as a (stem, extension) pair;
the on-disk name is `stem ++ "." ++ ext`.  `Path.glob("*.png")` on a
POSIX filesystem is case-sensitive, so the glob for pattern `*.png`
keeps exactly the entries whose extension is the exact string `"png"`.
`img_path.with_suffix(".txt")` replaces the extension with `"txt"`. -/

structure FileName where
  stem : String
  ext : String
deriving DecidableEq

/-- The glob patterns of line 54, by their extensions, in source order. -/
def imageGlobs : List String := ["png", "jpg", "jpeg", "webp"]

/-- `img_path.with_suffix(".txt")` (line 56). -/
def with_suffix_txt (f : FileName) : FileName := ⟨f.stem, "txt"⟩

/-- `self.dataset_dir.glob(ext)` for one pattern (line 55): the entries
of the directory whose extension equals the pattern's extension,
case-sensitively, as pathlib globbing is on Linux. -/
def globMatches (dir : List FileName) (e : String) : List FileName :=
  dir.filter (fun f => f.ext == e)

/-- `self.image_files` after the scan loop of lines 54-58: for each
glob pattern in order, each matched image whose same-stem `.txt`
caption exists in the directory, paired with that caption. -/
def ankyImageFiles (dir : List FileName) : List (FileName × FileName) :=
  imageGlobs.flatMap (fun e =>
    (globMatches dir e).filterMap (fun img =>
      if with_suffix_txt img ∈ dir then some (img, with_suffix_txt img) else none))

/-- `AnkyDataset.__len__` (lines 69-70). -/
def ankyDatasetLen (dir : List FileName) : Nat := (ankyImageFiles dir).length

/-- ASCII lowercasing of one character (A-Z to a-z). -/
def lowerChar (c : Char) : Char :=
  if 65 ≤ c.toNat ∧ c.toNat ≤ 90 then Char.ofNat (c.toNat + 32) else c

/-- ASCII lowercasing of a string (extensions are ASCII). -/
def lowerStr (s : String) : String := ⟨s.data.map lowerChar⟩

/-- The count the claim describes: image files whose extension matches
png/jpg/jpeg/webp case-insensitively and that have a same-base-name
caption file.  (Stated from the spec's words, to compare with the
source's `ankyDatasetLen`.) -/
def claimPairedCount (dir : List FileName) : Nat :=
  (dir.filter (fun f =>
    (lowerStr f.ext ∈ imageGlobs : Bool) && (with_suffix_txt f ∈ dir : Bool))).length

/-- The case-sensitive pair count that the code actually computes:
image files whose extension is exactly one of the lowercase strings
png/jpg/jpeg/webp and that have a same-base-name caption file. -/
def pairedCountCS (dir : List FileName) : Nat :=
  (dir.filter (fun f =>
    (f.ext ∈ imageGlobs : Bool) && (with_suffix_txt f ∈ dir : Bool))).length

/-! ## Per-batch numerics (lines 176-207)

Tensors are embedded as lists of exact rationals (one entry per
element); the per-sample continuous noise level `t` is a scalar that
broadcasts over the sample's latent, exactly as `sigmas.view(-1,1,1,1)`
broadcasts on line 180.  The bf16/fp32 machine formats are abstracted
to exact arithmetic; the `.float()` casts of line 207 mean the loss is
the exact mean-squared error of its inputs, which the exact model
captures. -/

/-- `Tensor.long()` on a real scalar: truncation toward zero. -/
def torchLong (q : ℚ) : ℤ := if 0 ≤ q then ⌊q⌋ else -⌊-q⌋

/-- `torch.nn.functional.mse_loss(pred, target, reduction="mean")`
(line 207): the mean of elementwise squared differences. -/
def mse_loss (pred target : List ℚ) : ℚ :=
  (((pred.zip target).map (fun p => (p.1 - p.2) ^ 2)).sum) /
    (((pred.zip target).length : ℚ))

/-- The values lines 176-207 compute for one sample. -/
structure BatchNumerics where
  noisy : List ℚ
  timestep : ℤ
  target : List ℚ
  loss : ℚ
deriving DecidableEq

/-- Lines 179-182 and 206-207 of `main`, for one sample of the batch:
`t` is the sample's entry of `timesteps = torch.rand(bsz)`, `noise` and
`latent` are the sample's flattened noise and latent tensors, and
`pred` is the (unwrapped) model prediction for the sample. -/
def fluxBatchNumerics (t : ℚ) (noise latent pred : List ℚ) : BatchNumerics :=
  let sigmas := t
  let noisy_latents := (noise.zip latent).map (fun p => (1 - sigmas) * p.1 + sigmas * p.2)
  let timesteps_scaled := torchLong (t * 1000)
  let target := (latent.zip noise).map (fun p => p.1 - p.2)
  ⟨noisy_latents, timesteps_scaled, target, mse_loss pred target⟩

/-! ## Device placement (lines 87-139, 170-174, 184-190) -/

inductive Device where
  | cpu : Device
  | cuda : Nat → Device
deriving DecidableEq

/-- Where each model subsystem resides after startup. -/
structure Placement where
  transformer : Device
  vae : Device
  text_encoder : Device
deriving DecidableEq

/-- The placement decision of lines 97, 106 and 132-139, made once
before the training loop: `pipe.to(device)` puts every subsystem on the
primary device; if more than one CUDA device is visible, the VAE and
the text encoders move to `cuda:secondary_gpu_id` while the trainable
transformer stays on the primary device. -/
def planPlacement (cuda_available : Bool) (device_count : Nat)
    (gpu_id secondary_gpu_id : Nat) : Placement :=
  let device := if cuda_available then Device.cuda gpu_id else Device.cpu
  if device_count > 1 then
    ⟨device, Device.cuda secondary_gpu_id, Device.cuda secondary_gpu_id⟩
  else
    ⟨device, device, device⟩

/-- The cross-subsystem `.to(...)` calls of one micro-batch, as
(source device, destination device) pairs: `pixel_values.to(vae_device)`
(line 172, tensor resident on the primary device after line 167),
`latents.to(device)` (line 174), and `prompt_embeds.to(device=device)`
(line 190, embeddings produced on the text encoder's device).  A call
whose source equals its destination is a no-op: no transfer occurs. -/
def crossDeviceMoves (p : Placement) : List (Device × Device) :=
  [(p.transformer, p.vae), (p.vae, p.transformer), (p.text_encoder, p.transformer)]

/-! ## The training loop (lines 162-243) -/

/-- `round(x, 6)` of line 221: Python's round-half-to-even at the sixth
decimal place, on the exact rational model of the loss value. -/
def pyRound6 (q : ℚ) : ℚ :=
  let y := q * 1000000
  let n := ⌊y⌋
  let f := y - (n : ℚ)
  let r : ℤ :=
    if f < 1 / 2 then n
    else if 1 / 2 < f then n + 1
    else if n % 2 = 0 then n else n + 1
  (r : ℚ) / 1000000

/-- One observable action of the loop, in program order: the optimizer
step (carrying, as the multiset of contributing micro-batch indices,
the accumulated gradients it applies), the scheduler step, the gradient
reset, the per-step JSON progress line, and the filesystem/JSON actions
of checkpointing.  A checkpoint directory is identified by its label:
`some s` is `<output_dir>/checkpoint-<s>/`, `none` is
`<output_dir>/final/`. -/
inductive Act where
  | optimizerStep : List Nat → Act
  | schedulerStep : Act
  | zeroGrad : Act
  | progress : Nat → Nat → ℚ → ℚ → Act
  | mkdirCkpt : Option Nat → Act
  | saveWeights : Option Nat → Act
  | logCheckpoint : Nat → Act
  | writeConfig : Option Nat → Args → Act
  | logComplete : Act
deriving DecidableEq

/-- The mutable state the loop owns: `global_step` (line 162), the
accumulated gradients (as the list of micro-batch indices whose
`loss.backward()` contributed since the last `zero_grad`), and the
optimizer's and scheduler's step counts. -/
structure LoopState where
  global_step : Nat
  grads : List Nat
  optSteps : Nat
  schedSteps : Nat
deriving DecidableEq

def initState : LoopState := ⟨0, [], 0, 0⟩

/-- The body of `for batch in dataloader` (lines 167-230), minus the
break check: backpropagation accumulates this micro-batch's gradient;
every `gradient_accumulation`-th micro-batch steps the optimizer and
the scheduler and zeroes the gradients; the step counter increments; a
progress line is emitted; every `save_steps`-th step a step-labeled
checkpoint is written.  `lossAt k` is the (external, numeric) loss of
micro-batch `k`; `lrAt m` is the scheduler's learning rate after `m`
scheduler steps. -/
def microBatch (args : Args) (lossAt lrAt : Nat → ℚ) (s : LoopState) :
    LoopState × List Act :=
  let grads1 := s.grads ++ [s.global_step + 1]
  let doOpt := (s.global_step + 1) % args.gradient_accumulation = 0
  let optActs := if doOpt then
      [Act.optimizerStep grads1, Act.schedulerStep, Act.zeroGrad]
    else []
  let grads2 := if doOpt then [] else grads1
  let optSteps2 := if doOpt then s.optSteps + 1 else s.optSteps
  let schedSteps2 := if doOpt then s.schedSteps + 1 else s.schedSteps
  let step2 := s.global_step + 1
  let progAct := Act.progress step2 args.max_train_steps
      (pyRound6 (lossAt step2)) (lrAt schedSteps2)
  let ckptActs := if step2 % args.save_steps = 0 then
      [Act.mkdirCkpt (some step2), Act.saveWeights (some step2),
       Act.logCheckpoint step2]
    else []
  (⟨step2, grads2, optSteps2, schedSteps2⟩, optActs ++ [progAct] ++ ckptActs)

/-- One pass of `for batch in dataloader` (lines 166-233) with `n`
batches remaining in the pass: after each micro-batch,
`if global_step >= args.max_train_steps: break` (lines 232-233).
Returns the state, the actions, and whether the break fired. -/
def runPass (args : Args) (lossAt lrAt : Nat → ℚ) :
    Nat → LoopState → LoopState × List Act × Bool
  | 0, s => (s, [], false)
  | n + 1, s =>
    let r1 := microBatch args lossAt lrAt s
    if args.max_train_steps ≤ r1.1.global_step then (r1.1, r1.2, true)
    else
      let r2 := runPass args lossAt lrAt n r1.1
      (r2.1, r1.2 ++ r2.2.1, r2.2.2)

/-- `while global_step < args.max_train_steps` (line 165), with fuel
bounding the number of passes over the data loader; `numBatches` is
how many batches the data loader yields per pass.  `none` means the
loop is still running when the fuel runs out. -/
def runWhile (args : Args) (lossAt lrAt : Nat → ℚ) (numBatches : Nat) :
    Nat → LoopState → Option (LoopState × List Act)
  | 0, s => if s.global_step < args.max_train_steps then none else some (s, [])
  | fuel + 1, s =>
    if s.global_step < args.max_train_steps then
      let r1 := runPass args lossAt lrAt numBatches s
      match runWhile args lossAt lrAt numBatches fuel r1.1 with
      | none => none
      | some r2 => some (r2.1, r1.2.1 ++ r2.2)
    else some (s, [])

/-- The number of batches a `DataLoader` with `drop_last=False`
(line 143) yields per pass: `ceil(datasetLen / batch_size)`. -/
def numBatches (datasetLen batch_size : Nat) : Nat :=
  (datasetLen + batch_size - 1) / batch_size

/-- The unconditional epilogue of `main` (lines 236-243): make the
`final` directory, save the adapter weights there, dump `vars(args)`
to `config.json`, and emit the completion event. -/
def finalActions (args : Args) : List Act :=
  [Act.mkdirCkpt none, Act.saveWeights none,
   Act.writeConfig none args, Act.logComplete]

/-- The whole of `main` after setup (lines 162-243): run the training
loop on a dataset of `datasetLen` samples, then write the final
checkpoint.  `none` means the loop had not terminated within `fuel`
passes over the data loader. -/
def trainRun (args : Args) (lossAt lrAt : Nat → ℚ) (datasetLen fuel : Nat) :
    Option (LoopState × List Act) :=
  match runWhile args lossAt lrAt (numBatches datasetLen args.batch_size) fuel initState with
  | none => none
  | some r => some (r.1, r.2 ++ finalActions args)

/-! ## Derived characterizations of the loop (proved below, not part of
the embedding) -/

/-- The accumulated-gradient list after `k` micro-batches with
accumulation factor `N`: the indices since the last multiple of `N`. -/
def gradsAt (N k : Nat) : List Nat :=
  (List.range (k % N)).map (fun i => N * (k / N) + i + 1)

/-- The loop state after `k` micro-batches. -/
def stateAt (N k : Nat) : LoopState := ⟨k, gradsAt N k, k / N, k / N⟩

/-- The actions micro-batch `k` (1-indexed) emits. -/
def blockAt (args : Args) (lossAt lrAt : Nat → ℚ) (k : Nat) : List Act :=
  (if k % args.gradient_accumulation = 0 then
     [Act.optimizerStep (gradsAt args.gradient_accumulation (k - 1) ++ [k]),
      Act.schedulerStep, Act.zeroGrad]
   else [])
  ++ [Act.progress k args.max_train_steps (pyRound6 (lossAt k))
        (lrAt (k / args.gradient_accumulation))]
  ++ (if k % args.save_steps = 0 then
        [Act.mkdirCkpt (some k), Act.saveWeights (some k),
         Act.logCheckpoint k]
      else [])

/-- The actions of micro-batches `a+1 .. a+len`, in order. -/
def blocks (args : Args) (lossAt lrAt : Nat → ℚ) (a : Nat) : Nat → List Act
  | 0 => []
  | len + 1 => blockAt args lossAt lrAt (a + 1) ++ blocks args lossAt lrAt (a + 1) len

/-- The steps in `(a, a+len]` at which a step-labeled checkpoint is
written (every `save_steps`-th step). -/
def stepCkpts (ss a : Nat) : Nat → List Nat
  | 0 => []
  | len + 1 => (if (a + 1) % ss = 0 then [a + 1] else []) ++ stepCkpts ss (a + 1) len

/-- Iterating the micro-batch body `k` times from the initial state. -/
def afterBatches (args : Args) (lossAt lrAt : Nat → ℚ) : Nat → LoopState
  | 0 => initState
  | k + 1 => (microBatch args lossAt lrAt (afterBatches args lossAt lrAt k)).1

/-! ## Trace observers -/

/-- The per-step progress events of a trace, as
(step, total, rounded loss, learning rate) tuples. -/
def progressEvents (tr : List Act) : List (Nat × Nat × ℚ × ℚ) :=
  tr.filterMap (fun a => match a with
    | Act.progress s t l r => some (s, t, l, r)
    | _ => none)

/-- Every file-write of a trace, as (directory label, file name):
`saveWeights` writes `pytorch_lora_weights.safetensors` into its
directory (lines 229, 239), `writeConfig` writes `config.json`
(line 240). -/
def fileWrites (tr : List Act) : List (Option Nat × String) :=
  tr.filterMap (fun a => match a with
    | Act.saveWeights l => some (l, "pytorch_lora_weights.safetensors")
    | Act.writeConfig l _ => some (l, "config.json")
    | _ => none)

/-- Recognizes an optimizer-step action. -/
def isOptStep : Act → Bool
  | Act.optimizerStep _ => true
  | _ => false

/-- Recognizes a scheduler-step action. -/
def isSchedStep : Act → Bool
  | Act.schedulerStep => true
  | _ => false

/-- Recognizes a gradient-reset action. -/
def isZeroGrad : Act → Bool
  | Act.zeroGrad => true
  | _ => false

/-- Recognizes a weight save into the directory labeled `l`. -/
def isSaveTo (l : Option Nat) : Act → Bool
  | Act.saveWeights m => m == l
  | _ => false

/-! ## Concrete instances used by the witnesses -/

def argsW : Args :=
  { dataset_dir := "dataset", output_dir := "output", max_train_steps := 6,
    lora_rank := 64, learning_rate := 1 / 10000, resolution := 768,
    batch_size := 1, gradient_accumulation := 2, save_steps := 2,
    seed := 42, gpu_id := 0, secondary_gpu_id := 1 }

/-- Like `argsW` but with an accumulation factor that does not divide
the step budget. -/
def argsW2 : Args :=
  { argsW with gradient_accumulation := 4, save_steps := 500 }

def lossW : Nat → ℚ := fun _ => 0

def lrW : Nat → ℚ := fun _ => 1 / 10000

/-! ## Arithmetic helpers -/

theorem succ_div_mod_eq (N k : Nat) (hN : 0 < N) (h : (k + 1) % N = 0) :
    (k + 1) / N = k / N + 1 ∧ k % N + 1 = N := by
  rcases Nat.lt_or_ge (k % N + 1) N with hlt | hge
  · exfalso
    have hdm := Nat.div_add_mod k N
    have hk : k + 1 = (k % N + 1) + N * (k / N) := by omega
    rw [hk, Nat.add_mul_mod_self_left, Nat.mod_eq_of_lt hlt] at h
    omega
  · have hmod := Nat.mod_lt k hN
    have heq : k % N + 1 = N := by omega
    have hdm := Nat.div_add_mod k N
    refine ⟨?_, heq⟩
    have hk : k + 1 = N * (k / N + 1) := by rw [Nat.mul_succ]; omega
    rw [hk, Nat.mul_div_cancel_left _ hN]

theorem succ_div_mod_ne (N k : Nat) (hN : 0 < N) (h : (k + 1) % N ≠ 0) :
    (k + 1) / N = k / N ∧ (k + 1) % N = k % N + 1 := by
  rcases Nat.lt_or_ge (k % N + 1) N with hlt | hge
  · have hdm := Nat.div_add_mod k N
    have hk : k + 1 = (k % N + 1) + N * (k / N) := by omega
    constructor
    · rw [hk, Nat.add_mul_div_left _ _ hN, Nat.div_eq_of_lt hlt, Nat.zero_add]
    · rw [hk, Nat.add_mul_mod_self_left, Nat.mod_eq_of_lt hlt]
  · exfalso
    have hmod := Nat.mod_lt k hN
    have heq : k % N + 1 = N := by omega
    have hdm := Nat.div_add_mod k N
    have hk : k + 1 = N * (k / N + 1) := by rw [Nat.mul_succ]; omega
    rw [hk, Nat.mul_mod_right] at h
    exact h rfl

/-! ## The loop trace -/

theorem gradsAt_zero_mod (N k : Nat) (h : k % N = 0) : gradsAt N k = [] := by
  simp [gradsAt, h]

theorem gradsAt_succ (N k : Nat) (hN : 0 < N) (h : (k + 1) % N ≠ 0) :
    gradsAt N k ++ [k + 1] = gradsAt N (k + 1) := by
  obtain ⟨hdiv, hmod⟩ := succ_div_mod_ne N k hN h
  have hdm := Nat.div_add_mod k N
  have he : N * (k / N) + k % N + 1 = k + 1 := by omega
  simp only [gradsAt, hdiv, hmod, List.range_succ, List.map_append, List.map_cons,
    List.map_nil, he]

theorem microBatch_stateAt (args : Args) (lossAt lrAt : Nat → ℚ) (k : Nat)
    (hN : 0 < args.gradient_accumulation) :
    microBatch args lossAt lrAt (stateAt args.gradient_accumulation k)
      = (stateAt args.gradient_accumulation (k + 1), blockAt args lossAt lrAt (k + 1)) := by
  by_cases h : (k + 1) % args.gradient_accumulation = 0
  · obtain ⟨hdiv, hmod⟩ := succ_div_mod_eq _ k hN h
    simp [microBatch, stateAt, blockAt, h, hdiv, gradsAt_zero_mod _ (k + 1) h,
      Nat.add_sub_cancel]
  · obtain ⟨hdiv, hmod⟩ := succ_div_mod_ne _ k hN h
    simp [microBatch, stateAt, blockAt, h, hdiv, gradsAt_succ _ k hN h,
      Nat.add_sub_cancel]

theorem blocks_append (args : Args) (lossAt lrAt : Nat → ℚ) :
    ∀ l1 a l2, blocks args lossAt lrAt a l1 ++ blocks args lossAt lrAt (a + l1) l2
      = blocks args lossAt lrAt a (l1 + l2) := by
  intro l1
  induction l1 with
  | zero => intro a l2; simp [blocks]
  | succ n ih =>
    intro a l2
    have h : a + (n + 1) = (a + 1) + n := by omega
    have h2 : n + 1 + l2 = (n + l2) + 1 := by omega
    rw [h, h2]
    show (blockAt args lossAt lrAt (a + 1) ++ blocks args lossAt lrAt (a + 1) n) ++ _
      = blockAt args lossAt lrAt (a + 1) ++ blocks args lossAt lrAt (a + 1) (n + l2)
    rw [List.append_assoc, ih (a + 1) l2]

theorem runPass_stateAt (args : Args) (lossAt lrAt : Nat → ℚ)
    (hN : 0 < args.gradient_accumulation) :
    ∀ n k, k < args.max_train_steps →
      runPass args lossAt lrAt n (stateAt args.gradient_accumulation k)
        = (stateAt args.gradient_accumulation (min (k + n) args.max_train_steps),
           blocks args lossAt lrAt k (min (k + n) args.max_train_steps - k),
           decide (args.max_train_steps ≤ k + n)) := by
  intro n
  induction n with
  | zero =>
    intro k hk
    have h1 : min (k + 0) args.max_train_steps = k := by omega
    have h2 : decide (args.max_train_steps ≤ k + 0) = false := by
      simp only [decide_eq_false_iff_not]; omega
    rw [h1, h2]
    simp [runPass, blocks]
  | succ n ih =>
    intro k hk
    rw [runPass]
    rw [microBatch_stateAt args lossAt lrAt k hN]
    by_cases hbr : args.max_train_steps ≤ k + 1
    · have h2 : min (k + (n + 1)) args.max_train_steps - k = 1 := by omega
      have h3 : decide (args.max_train_steps ≤ k + (n + 1)) = true := by
        simp only [decide_eq_true_eq]; omega
      have h1 : min (k + (n + 1)) args.max_train_steps = k + 1 := by omega
      rw [h2, h3, h1]
      rw [if_pos (show args.max_train_steps ≤
          (stateAt args.gradient_accumulation (k + 1),
           blockAt args lossAt lrAt (k + 1)).1.global_step from by
        simpa [stateAt] using hbr)]
      simp [blocks]
    · have hlt : k + 1 < args.max_train_steps := by omega
      rw [if_neg (show ¬ args.max_train_steps ≤
          (stateAt args.gradient_accumulation (k + 1),
           blockAt args lossAt lrAt (k + 1)).1.global_step from by
        simpa [stateAt] using hbr)]
      show ((runPass args lossAt lrAt n (stateAt args.gradient_accumulation (k + 1))).1,
          blockAt args lossAt lrAt (k + 1)
            ++ (runPass args lossAt lrAt n (stateAt args.gradient_accumulation (k + 1))).2.1,
          (runPass args lossAt lrAt n (stateAt args.gradient_accumulation (k + 1))).2.2)
        = _
      rw [ih (k + 1) hlt]
      have hm : k + 1 + n = k + (n + 1) := by omega
      rw [hm]
      have h4 : min (k + (n + 1)) args.max_train_steps - k
          = (min (k + (n + 1)) args.max_train_steps - (k + 1)) + 1 := by omega
      rw [h4]
      simp only [blocks]

theorem runWhile_stateAt (args : Args) (lossAt lrAt : Nat → ℚ) (nb : Nat)
    (hN : 0 < args.gradient_accumulation) (hnb : 0 < nb) :
    ∀ fuel k, k ≤ args.max_train_steps → args.max_train_steps - k ≤ fuel →
      runWhile args lossAt lrAt nb fuel (stateAt args.gradient_accumulation k)
        = some (stateAt args.gradient_accumulation args.max_train_steps,
                blocks args lossAt lrAt k (args.max_train_steps - k)) := by
  intro fuel
  induction fuel with
  | zero =>
    intro k hk hf
    have hk' : k = args.max_train_steps := by omega
    subst hk'
    rw [runWhile]
    simp [stateAt, blocks]
  | succ fuel ih =>
    intro k hk hf
    by_cases hlt : k < args.max_train_steps
    · rw [runWhile]
      rw [if_pos (show (stateAt args.gradient_accumulation k).global_step
            < args.max_train_steps from by simpa [stateAt] using hlt)]
      rw [runPass_stateAt args lossAt lrAt hN nb k hlt]
      have hgt : k < min (k + nb) args.max_train_steps := by omega
      have hle : min (k + nb) args.max_train_steps ≤ args.max_train_steps := by omega
      have hfl : args.max_train_steps - min (k + nb) args.max_train_steps ≤ fuel := by omega
      show (match runWhile args lossAt lrAt nb fuel
              (stateAt args.gradient_accumulation (min (k + nb) args.max_train_steps)) with
            | none => none
            | some r2 => some (r2.1,
                blocks args lossAt lrAt k (min (k + nb) args.max_train_steps - k) ++ r2.2))
          = _
      rw [ih (min (k + nb) args.max_train_steps) hle hfl]
      have hsum : k + (min (k + nb) args.max_train_steps - k)
          = min (k + nb) args.max_train_steps := by omega
      have hlen : (min (k + nb) args.max_train_steps - k)
          + (args.max_train_steps - min (k + nb) args.max_train_steps)
          = args.max_train_steps - k := by omega
      have happ := blocks_append args lossAt lrAt
        (min (k + nb) args.max_train_steps - k) k
        (args.max_train_steps - min (k + nb) args.max_train_steps)
      rw [hsum, hlen] at happ
      simp only []
      rw [happ]
    · have hk' : k = args.max_train_steps := by omega
      subst hk'
      rw [runWhile]
      simp [stateAt, blocks]

theorem initState_eq : initState = stateAt N 0 := by
  simp [initState, stateAt, gradsAt]

theorem numBatches_pos (d b : Nat) (hd : 0 < d) (hb : 0 < b) :
    0 < numBatches d b := by
  have h : b ≤ d + b - 1 := by omega
  exact (Nat.one_le_div_iff hb).mpr h

theorem trainRun_trace (args : Args) (lossAt lrAt : Nat → ℚ) (d fuel : Nat)
    (hd : 0 < d) (hb : 0 < args.batch_size) (hN : 0 < args.gradient_accumulation)
    (hfuel : args.max_train_steps ≤ fuel) :
    trainRun args lossAt lrAt d fuel
      = some (stateAt args.gradient_accumulation args.max_train_steps,
              blocks args lossAt lrAt 0 args.max_train_steps ++ finalActions args) := by
  have hnb := numBatches_pos d args.batch_size hd hb
  rw [trainRun, initState_eq,
    runWhile_stateAt args lossAt lrAt _ hN hnb fuel 0 (Nat.zero_le _) (by omega)]
  simp

/-! ## Extracting observations from the trace -/

theorem progressEvents_append (t1 t2 : List Act) :
    progressEvents (t1 ++ t2) = progressEvents t1 ++ progressEvents t2 := by
  simp [progressEvents, List.filterMap_append]

theorem fileWrites_append (t1 t2 : List Act) :
    fileWrites (t1 ++ t2) = fileWrites t1 ++ fileWrites t2 := by
  simp [fileWrites, List.filterMap_append]

theorem progressEvents_blockAt (args : Args) (lossAt lrAt : Nat → ℚ) (k : Nat) :
    progressEvents (blockAt args lossAt lrAt k)
      = [(k, args.max_train_steps, pyRound6 (lossAt k),
          lrAt (k / args.gradient_accumulation))] := by
  by_cases h1 : k % args.gradient_accumulation = 0 <;>
    by_cases h2 : k % args.save_steps = 0 <;>
      simp [blockAt, progressEvents, h1, h2]

theorem progressEvents_blocks (args : Args) (lossAt lrAt : Nat → ℚ) :
    ∀ len a, progressEvents (blocks args lossAt lrAt a len)
      = (List.range len).map (fun i =>
          (a + i + 1, args.max_train_steps, pyRound6 (lossAt (a + i + 1)),
           lrAt ((a + i + 1) / args.gradient_accumulation))) := by
  intro len
  induction len with
  | zero => intro a; simp [blocks, progressEvents]
  | succ n ih =>
    intro a
    rw [blocks, progressEvents_append, progressEvents_blockAt, ih (a + 1)]
    rw [List.range_succ_eq_map]
    have h : ∀ i : Nat, a + (i + 1) + 1 = a + 1 + i + 1 := fun i => by omega
    simp [List.map_map, Function.comp, Nat.succ_eq_add_one, h]

theorem progressEvents_final (args : Args) : progressEvents (finalActions args) = [] := by
  simp [progressEvents, finalActions]

theorem fileWrites_blockAt (args : Args) (lossAt lrAt : Nat → ℚ) (k : Nat) :
    fileWrites (blockAt args lossAt lrAt k)
      = if k % args.save_steps = 0
          then [(some k, "pytorch_lora_weights.safetensors")] else [] := by
  by_cases h1 : k % args.gradient_accumulation = 0 <;>
    by_cases h2 : k % args.save_steps = 0 <;>
      simp [blockAt, fileWrites, h1, h2]

theorem fileWrites_blocks (args : Args) (lossAt lrAt : Nat → ℚ) :
    ∀ len a, fileWrites (blocks args lossAt lrAt a len)
      = (stepCkpts args.save_steps a len).map
          (fun k => ((some k : Option Nat), "pytorch_lora_weights.safetensors")) := by
  intro len
  induction len with
  | zero => intro a; simp [blocks, stepCkpts, fileWrites]
  | succ n ih =>
    intro a
    rw [blocks, fileWrites_append, fileWrites_blockAt, ih (a + 1), stepCkpts]
    by_cases hc : (a + 1) % args.save_steps = 0 <;> simp [hc]

theorem fileWrites_final (args : Args) :
    fileWrites (finalActions args)
      = [((none : Option Nat), "pytorch_lora_weights.safetensors"),
         ((none : Option Nat), "config.json")] := by
  simp [fileWrites, finalActions]

theorem stepCkpts_mem (ss : Nat) :
    ∀ len a x, x ∈ stepCkpts ss a len → a < x ∧ x ≤ a + len := by
  intro len
  induction len with
  | zero => intro a x hx; simp [stepCkpts] at hx
  | succ n ih =>
    intro a x hx
    rw [stepCkpts] at hx
    rcases List.mem_append.mp hx with h | h
    · by_cases hc : (a + 1) % ss = 0
      · rw [if_pos hc] at h; simp at h; omega
      · rw [if_neg hc] at h; simp at h
    · have := ih (a + 1) x h; omega

theorem stepCkpts_nodup (ss : Nat) : ∀ len a, (stepCkpts ss a len).Nodup := by
  intro len
  induction len with
  | zero => intro a; simp [stepCkpts]
  | succ n ih =>
    intro a
    rw [stepCkpts]
    by_cases hc : (a + 1) % ss = 0
    · rw [if_pos hc]
      simp only [List.singleton_append, List.nodup_cons]
      refine ⟨fun hmem => ?_, ih (a + 1)⟩
      have := stepCkpts_mem ss n (a + 1) (a + 1) hmem
      omega
    · rw [if_neg hc]; simpa using ih (a + 1)

theorem countOpt_blockAt (args : Args) (lossAt lrAt : Nat → ℚ) (k : Nat) :
    (blockAt args lossAt lrAt k).countP isOptStep
      = if k % args.gradient_accumulation = 0 then 1 else 0 := by
  by_cases h1 : k % args.gradient_accumulation = 0 <;>
    by_cases h2 : k % args.save_steps = 0 <;>
      simp [blockAt, isOptStep, h1, h2]

theorem countOpt_blocks (args : Args) (lossAt lrAt : Nat → ℚ)
    (hN : 0 < args.gradient_accumulation) :
    ∀ len a, (blocks args lossAt lrAt a len).countP isOptStep
      = (a + len) / args.gradient_accumulation - a / args.gradient_accumulation := by
  intro len
  induction len with
  | zero => intro a; simp [blocks]
  | succ n ih =>
    intro a
    rw [blocks, List.countP_append, countOpt_blockAt, ih (a + 1)]
    have hmono2 : (a + 1) / args.gradient_accumulation
        ≤ (a + (n + 1)) / args.gradient_accumulation := Nat.div_le_div_right (by omega)
    have hmono : a / args.gradient_accumulation
        ≤ (a + 1) / args.gradient_accumulation := Nat.div_le_div_right (by omega)
    have h5 : a + 1 + n = a + (n + 1) := by omega
    rw [h5]
    by_cases hc : (a + 1) % args.gradient_accumulation = 0
    · obtain ⟨hdiv, _⟩ := succ_div_mod_eq _ a hN hc
      rw [if_pos hc]
      omega
    · obtain ⟨hdiv, _⟩ := succ_div_mod_ne _ a hN hc
      rw [if_neg hc]
      omega

theorem gradsAt_bounds (N a : Nat) :
    ∀ j ∈ gradsAt N a, N * (a / N) < j ∧ j ≤ a := by
  intro j hj
  rw [gradsAt] at hj
  simp only [List.mem_map, List.mem_range] at hj
  obtain ⟨i, hi, rfl⟩ := hj
  have hdm := Nat.div_add_mod a N
  omega

theorem optPayload_blocks (args : Args) (lossAt lrAt : Nat → ℚ) :
    ∀ len a g, Act.optimizerStep g ∈ blocks args lossAt lrAt a len →
      ∃ k, a < k ∧ k ≤ a + len ∧ k % args.gradient_accumulation = 0 ∧ ∀ j ∈ g, j ≤ k := by
  intro len
  induction len with
  | zero => intro a g hg; simp [blocks] at hg
  | succ n ih =>
    intro a g hg
    rw [blocks] at hg
    rcases List.mem_append.mp hg with h | h
    · by_cases hc : (a + 1) % args.gradient_accumulation = 0 <;>
        by_cases hsv : (a + 1) % args.save_steps = 0 <;>
          simp [blockAt, hc, hsv] at h
      all_goals {
        refine ⟨a + 1, by omega, by omega, hc, ?_⟩
        intro j hj
        rw [h] at hj
        rcases List.mem_append.mp hj with hj1 | hj1
        · exact le_trans (gradsAt_bounds _ a j hj1).2 (by omega)
        · simp at hj1; omega }
    · obtain ⟨k, h1, h2, h3, h4⟩ := ih (a + 1) g h
      exact ⟨k, by omega, by omega, h3, h4⟩

/-! ## Dataset counting -/

theorem length_filterMap_ite {α β : Type} (l : List α) (p : α → Prop) [DecidablePred p]
    (g : α → β) :
    (l.filterMap (fun x => if p x then some (g x) else none)).length
      = l.countP (fun x => decide (p x)) := by
  induction l with
  | nil => simp
  | cons x l ih =>
    by_cases hx : p x <;> simp [hx, ih, List.countP_cons]

theorem countP_or_disjoint {α : Type} (p q : α → Bool)
    (h : ∀ x, ¬(p x = true ∧ q x = true)) :
    ∀ l : List α, l.countP (fun x => p x || q x) = l.countP p + l.countP q := by
  intro l
  induction l with
  | nil => simp
  | cons x l ih =>
    simp only [List.countP_cons, ih]
    by_cases hp : p x <;> by_cases hq : q x
    · exact absurd ⟨hp, hq⟩ (h x)
    all_goals (simp [hp, hq]; try omega)

theorem sum_counts_exts (P : FileName → Bool) :
    ∀ es : List String, es.Nodup → ∀ l : List FileName,
      ((es.map (fun e => l.countP (fun f => P f && decide (f.ext = e)))).sum)
        = l.countP (fun f => P f && decide (f.ext ∈ es)) := by
  intro es
  induction es with
  | nil => intro _ l; simp
  | cons e es ih =>
    intro hnd l
    rw [List.map_cons, List.sum_cons, ih (List.nodup_cons.mp hnd).2 l]
    have hdis : ∀ f : FileName,
        ¬((P f && decide (f.ext = e)) = true ∧ (P f && decide (f.ext ∈ es)) = true) := by
      rintro f ⟨h1, h2⟩
      simp only [Bool.and_eq_true, decide_eq_true_eq] at h1 h2
      exact (List.nodup_cons.mp hnd).1 (h1.2 ▸ h2.2)
    rw [← countP_or_disjoint _ _ hdis l]
    congr 1
    funext f
    by_cases hP : P f <;> simp [hP, List.mem_cons]

theorem ankyDatasetLen_eq_pairedCountCS (dir : List FileName) :
    ankyDatasetLen dir = pairedCountCS dir := by
  rw [ankyDatasetLen, ankyImageFiles, List.length_flatMap]
  have h1 : ∀ e, ((globMatches dir e).filterMap (fun img =>
        if with_suffix_txt img ∈ dir then some (img, with_suffix_txt img) else none)).length
      = dir.countP (fun f => decide (with_suffix_txt f ∈ dir) && decide (f.ext = e)) := by
    intro e
    rw [length_filterMap_ite, globMatches, List.countP_filter]
    congr 1
  simp only [Function.comp_def, h1]
  rw [sum_counts_exts _ imageGlobs (by decide) dir]
  rw [pairedCountCS, ← List.countP_eq_length_filter]
  congr 1
  funext f
  exact Bool.and_comm _ _

theorem ankyDatasetLen_perm (d1 d2 : List FileName) (hp : d1.Perm d2) :
    ankyDatasetLen d1 = ankyDatasetLen d2 := by
  rw [ankyDatasetLen_eq_pairedCountCS d1, ankyDatasetLen_eq_pairedCountCS d2,
    pairedCountCS, pairedCountCS, ← List.countP_eq_length_filter,
    ← List.countP_eq_length_filter]
  have hfun : (fun f : FileName =>
        (decide (f.ext ∈ imageGlobs)) && decide (with_suffix_txt f ∈ d1))
      = fun f => (decide (f.ext ∈ imageGlobs)) && decide (with_suffix_txt f ∈ d2) := by
    funext f
    congr 1
    exact decide_eq_decide.mpr hp.mem_iff
  rw [hfun]
  exact hp.countP_eq _

/-! ## Further support lemmas -/

theorem afterBatches_stateAt (args : Args) (lossAt lrAt : Nat → ℚ)
    (hN : 0 < args.gradient_accumulation) :
    ∀ k, afterBatches args lossAt lrAt k = stateAt args.gradient_accumulation k := by
  intro k
  induction k with
  | zero => rw [afterBatches, initState_eq]
  | succ k ih => rw [afterBatches, ih, microBatch_stateAt args lossAt lrAt k hN]

theorem saveNone_not_mem_blockAt (args : Args) (lossAt lrAt : Nat → ℚ) (k : Nat) :
    Act.saveWeights none ∉ blockAt args lossAt lrAt k := by
  by_cases h1 : k % args.gradient_accumulation = 0 <;>
    by_cases h2 : k % args.save_steps = 0 <;>
      simp [blockAt, h1, h2]

theorem saveNone_not_mem_blocks (args : Args) (lossAt lrAt : Nat → ℚ) :
    ∀ len a, Act.saveWeights none ∉ blocks args lossAt lrAt a len := by
  intro len
  induction len with
  | zero => intro a; simp [blocks]
  | succ n ih =>
    intro a
    simp only [blocks, List.mem_append, not_or]
    exact ⟨saveNone_not_mem_blockAt args lossAt lrAt (a + 1), ih (a + 1)⟩

theorem writeConfig_not_mem_blockAt (args : Args) (lossAt lrAt : Nat → ℚ) (k : Nat)
    (cfg : Args) : Act.writeConfig none cfg ∉ blockAt args lossAt lrAt k := by
  by_cases h1 : k % args.gradient_accumulation = 0 <;>
    by_cases h2 : k % args.save_steps = 0 <;>
      simp [blockAt, h1, h2]

theorem writeConfig_not_mem_blocks (args : Args) (lossAt lrAt : Nat → ℚ) :
    ∀ len a cfg, Act.writeConfig none cfg ∉ blocks args lossAt lrAt a len := by
  intro len
  induction len with
  | zero => intro a cfg; simp [blocks]
  | succ n ih =>
    intro a cfg
    simp only [blocks, List.mem_append, not_or]
    exact ⟨writeConfig_not_mem_blockAt args lossAt lrAt (a + 1) cfg, ih (a + 1) cfg⟩

theorem logComplete_not_mem_blockAt (args : Args) (lossAt lrAt : Nat → ℚ) (k : Nat) :
    Act.logComplete ∉ blockAt args lossAt lrAt k := by
  by_cases h1 : k % args.gradient_accumulation = 0 <;>
    by_cases h2 : k % args.save_steps = 0 <;>
      simp [blockAt, h1, h2]

theorem logComplete_not_mem_blocks (args : Args) (lossAt lrAt : Nat → ℚ) :
    ∀ len a, Act.logComplete ∉ blocks args lossAt lrAt a len := by
  intro len
  induction len with
  | zero => intro a; simp [blocks]
  | succ n ih =>
    intro a
    simp only [blocks, List.mem_append, not_or]
    exact ⟨logComplete_not_mem_blockAt args lossAt lrAt (a + 1), ih (a + 1)⟩

theorem numBatches_zero : ∀ b, numBatches 0 b = 0 := by
  intro b
  match b with
  | 0 => rfl
  | b + 1 => exact Nat.div_eq_of_lt (by omega)

theorem runPass_zero (args : Args) (lossAt lrAt : Nat → ℚ) (s : LoopState) :
    runPass args lossAt lrAt 0 s = (s, [], false) := rfl

theorem runWhile_zero_nb (args : Args) (lossAt lrAt : Nat → ℚ) :
    ∀ fuel s, s.global_step < args.max_train_steps →
      runWhile args lossAt lrAt 0 fuel s = none := by
  intro fuel
  induction fuel with
  | zero =>
    intro s hs
    rw [runWhile, if_pos hs]
  | succ fuel ih =>
    intro s hs
    rw [runWhile, if_pos hs]
    show (match runWhile args lossAt lrAt 0 fuel s with
          | none => none
          | some r2 => some (r2.1, ([] : List Act) ++ r2.2)) = none
    rw [ih s hs]

theorem map_zip_eq_zipWith {α β γ : Type} (f : α → β → γ) :
    ∀ (l1 : List α) (l2 : List β),
      (l1.zip l2).map (fun p => f p.1 p.2) = List.zipWith f l1 l2 := by
  intro l1
  induction l1 with
  | nil => intro l2; simp
  | cons x l ih =>
    intro l2
    cases l2 with
    | nil => simp
    | cons y l2 => simp [ih l2]

theorem countSched_blockAt (args : Args) (lossAt lrAt : Nat → ℚ) (k : Nat) :
    (blockAt args lossAt lrAt k).countP isSchedStep
      = if k % args.gradient_accumulation = 0 then 1 else 0 := by
  by_cases h1 : k % args.gradient_accumulation = 0 <;>
    by_cases h2 : k % args.save_steps = 0 <;>
      simp [blockAt, isSchedStep, h1, h2]

theorem countZero_blockAt (args : Args) (lossAt lrAt : Nat → ℚ) (k : Nat) :
    (blockAt args lossAt lrAt k).countP isZeroGrad
      = if k % args.gradient_accumulation = 0 then 1 else 0 := by
  by_cases h1 : k % args.gradient_accumulation = 0 <;>
    by_cases h2 : k % args.save_steps = 0 <;>
      simp [blockAt, isZeroGrad, h1, h2]

theorem runWhile_fuel_zero (args : Args) (lossAt lrAt : Nat → ℚ) (nb : Nat)
    (s : LoopState) (hs : s.global_step < args.max_train_steps) :
    runWhile args lossAt lrAt nb 0 s = none := by
  rw [runWhile, if_pos hs]

/-! ## The claims -/

/-- Claim C1: during a run, every checkpoint file write (the weight
file of each step-labeled checkpoint, the weight file of the final
checkpoint, and the final config sidecar) targets a pairwise-distinct
(directory, file name) destination, so no checkpoint write ever
overwrites a prior checkpoint directory or its contents; in particular
no step `S` is checkpointed twice. -/
theorem c1_checkpoint_dirs_fresh (args : Args) (lossAt lrAt : Nat → ℚ) (d fuel : Nat)
    (hd : 0 < d) (hb : 0 < args.batch_size) (hN : 0 < args.gradient_accumulation)
    (hss : 0 < args.save_steps) (hfuel : args.max_train_steps ≤ fuel) :
    ∃ st tr, trainRun args lossAt lrAt d fuel = some (st, tr)
      ∧ (fileWrites tr).Nodup := by
  refine ⟨_, _, trainRun_trace args lossAt lrAt d fuel hd hb hN hfuel, ?_⟩
  rw [fileWrites_append, fileWrites_blocks, fileWrites_final]
  apply List.Nodup.append
  · exact List.Nodup.map
      (fun k1 k2 h => by simpa using h)
      (stepCkpts_nodup args.save_steps args.max_train_steps 0)
  · decide
  · intro x hx1 hx2
    simp only [List.mem_map] at hx1
    obtain ⟨k, _, rfl⟩ := hx1
    simp at hx2

/-- Claim C1 witness. -/
theorem c1_witness :
    0 < 2 ∧ 0 < argsW.batch_size ∧ 0 < argsW.gradient_accumulation
    ∧ 0 < argsW.save_steps ∧ argsW.max_train_steps ≤ 6
    ∧ ∃ st tr, trainRun argsW lossW lrW 2 6 = some (st, tr)
        ∧ (fileWrites tr).Nodup :=
  ⟨by decide, by decide, by decide, by decide, by decide,
   c1_checkpoint_dirs_fresh argsW lossW lrW 2 6 (by decide) (by decide) (by decide)
     (by decide) (by decide)⟩

/-- Claim C2 (counterexample): the claim counts extensions
case-insensitively, but `Path.glob("*.png")` is case-sensitive on a
POSIX filesystem: for the directory holding `a.PNG` and `a.txt` the
claim's count is 1 while the constructed Dataset has length 0. -/
theorem c2_counterexample :
    ¬ (ankyDatasetLen [⟨"a", "PNG"⟩, ⟨"a", "txt"⟩]
        = claimPairedCount [⟨"a", "PNG"⟩, ⟨"a", "txt"⟩]) := by decide

/-- Claim C2 (amended): for every dataset directory, the constructed
Dataset has length exactly the number of image files whose extension is
exactly one of the lowercase strings png/jpg/jpeg/webp (case-sensitive
match) and that have a same-base-name caption file; images lacking a
caption are skipped without error, and the length is independent of
file order. -/
theorem c2_dataset_length :
    (∀ dir, ankyDatasetLen dir = pairedCountCS dir)
    ∧ ∀ d1 d2 : List FileName, d1.Perm d2 → ankyDatasetLen d1 = ankyDatasetLen d2 :=
  ⟨ankyDatasetLen_eq_pairedCountCS, ankyDatasetLen_perm⟩

/-- Claim C2 witness. -/
theorem c2_witness :
    ([⟨"a", "png"⟩, ⟨"a", "txt"⟩] : List FileName).Perm [⟨"a", "txt"⟩, ⟨"a", "png"⟩]
    ∧ ankyDatasetLen [⟨"a", "png"⟩, ⟨"a", "txt"⟩]
        = pairedCountCS [⟨"a", "png"⟩, ⟨"a", "txt"⟩]
    ∧ ankyDatasetLen [⟨"a", "png"⟩, ⟨"a", "txt"⟩]
        = ankyDatasetLen [⟨"a", "txt"⟩, ⟨"a", "png"⟩] :=
  ⟨List.Perm.swap (⟨"a", "txt"⟩ : FileName) ⟨"a", "png"⟩ [],
   c2_dataset_length.1 [⟨"a", "png"⟩, ⟨"a", "txt"⟩],
   c2_dataset_length.2 _ _ (List.Perm.swap (⟨"a", "txt"⟩ : FileName) ⟨"a", "png"⟩ [])⟩

/-- Claim C3: with accumulation factor `N`, the optimizer-step counter
after `k` micro-batches is exactly `k / N`; the optimizer step, the
scheduler step and the gradient reset happen in a micro-batch exactly
when the completed micro-batch count is a multiple of `N` (exactly one
of each then, none otherwise); and the accumulated gradients are empty
immediately after each optimizer step. -/
theorem c3_accumulation_schedule (args : Args) (lossAt lrAt : Nat → ℚ)
    (hN : 0 < args.gradient_accumulation) :
    (∀ k, (afterBatches args lossAt lrAt k).optSteps = k / args.gradient_accumulation)
    ∧ (∀ k,
        ((k + 1) % args.gradient_accumulation = 0 →
          (afterBatches args lossAt lrAt (k + 1)).optSteps
              = (afterBatches args lossAt lrAt k).optSteps + 1
          ∧ (afterBatches args lossAt lrAt (k + 1)).schedSteps
              = (afterBatches args lossAt lrAt k).schedSteps + 1
          ∧ (afterBatches args lossAt lrAt (k + 1)).grads = []
          ∧ (microBatch args lossAt lrAt (afterBatches args lossAt lrAt k)).2.countP isOptStep = 1
          ∧ (microBatch args lossAt lrAt (afterBatches args lossAt lrAt k)).2.countP isSchedStep = 1
          ∧ (microBatch args lossAt lrAt (afterBatches args lossAt lrAt k)).2.countP isZeroGrad = 1)
        ∧ ((k + 1) % args.gradient_accumulation ≠ 0 →
          (afterBatches args lossAt lrAt (k + 1)).optSteps
              = (afterBatches args lossAt lrAt k).optSteps
          ∧ (afterBatches args lossAt lrAt (k + 1)).schedSteps
              = (afterBatches args lossAt lrAt k).schedSteps
          ∧ (microBatch args lossAt lrAt (afterBatches args lossAt lrAt k)).2.countP isOptStep = 0
          ∧ (microBatch args lossAt lrAt (afterBatches args lossAt lrAt k)).2.countP isSchedStep = 0
          ∧ (microBatch args lossAt lrAt (afterBatches args lossAt lrAt k)).2.countP isZeroGrad = 0)) := by
  have hA := afterBatches_stateAt args lossAt lrAt hN
  constructor
  · intro k
    rw [hA k]
    rfl
  · intro k
    constructor
    · intro h
      obtain ⟨hdiv, _⟩ := succ_div_mod_eq _ k hN h
      rw [hA k, hA (k + 1), microBatch_stateAt args lossAt lrAt k hN]
      refine ⟨?_, ?_, ?_, ?_, ?_, ?_⟩
      · show (k + 1) / args.gradient_accumulation = k / args.gradient_accumulation + 1
        exact hdiv
      · show (k + 1) / args.gradient_accumulation = k / args.gradient_accumulation + 1
        exact hdiv
      · show gradsAt args.gradient_accumulation (k + 1) = []
        exact gradsAt_zero_mod _ _ h
      · show (blockAt args lossAt lrAt (k + 1)).countP isOptStep = 1
        rw [countOpt_blockAt, if_pos h]
      · show (blockAt args lossAt lrAt (k + 1)).countP isSchedStep = 1
        rw [countSched_blockAt, if_pos h]
      · show (blockAt args lossAt lrAt (k + 1)).countP isZeroGrad = 1
        rw [countZero_blockAt, if_pos h]
    · intro h
      obtain ⟨hdiv, _⟩ := succ_div_mod_ne _ k hN h
      rw [hA k, hA (k + 1), microBatch_stateAt args lossAt lrAt k hN]
      refine ⟨hdiv, hdiv, ?_, ?_, ?_⟩
      · show (blockAt args lossAt lrAt (k + 1)).countP isOptStep = 0
        rw [countOpt_blockAt, if_neg h]
      · show (blockAt args lossAt lrAt (k + 1)).countP isSchedStep = 0
        rw [countSched_blockAt, if_neg h]
      · show (blockAt args lossAt lrAt (k + 1)).countP isZeroGrad = 0
        rw [countZero_blockAt, if_neg h]

/-- Claim C3 witness. -/
theorem c3_witness :
    0 < argsW.gradient_accumulation
    ∧ (afterBatches argsW lossW lrW 5).optSteps = 5 / argsW.gradient_accumulation :=
  ⟨by decide, (c3_accumulation_schedule argsW lossW lrW (by decide)).1 5⟩

/-- Claim C4: over a non-empty dataset the per-step progress events of
a completed run are exactly one per step `1 .. max_train_steps`, in
increasing step order, each carrying the step index, the total step
count, the rounded loss, and the scheduler's current learning rate. -/
theorem c4_progress_events (args : Args) (lossAt lrAt : Nat → ℚ) (d fuel : Nat)
    (hd : 0 < d) (hb : 0 < args.batch_size) (hN : 0 < args.gradient_accumulation)
    (hfuel : args.max_train_steps ≤ fuel) :
    ∃ st tr, trainRun args lossAt lrAt d fuel = some (st, tr)
      ∧ progressEvents tr = (List.range args.max_train_steps).map (fun i =>
          (i + 1, args.max_train_steps, pyRound6 (lossAt (i + 1)),
           lrAt ((i + 1) / args.gradient_accumulation))) := by
  refine ⟨_, _, trainRun_trace args lossAt lrAt d fuel hd hb hN hfuel, ?_⟩
  rw [progressEvents_append, progressEvents_blocks, progressEvents_final, List.append_nil]
  simp

/-- Claim C4 witness. -/
theorem c4_witness :
    0 < 2 ∧ 0 < argsW.batch_size ∧ 0 < argsW.gradient_accumulation
    ∧ argsW.max_train_steps ≤ 6
    ∧ ∃ st tr, trainRun argsW lossW lrW 2 6 = some (st, tr)
        ∧ progressEvents tr = (List.range argsW.max_train_steps).map (fun i =>
            (i + 1, argsW.max_train_steps, pyRound6 (lossW (i + 1)),
             lrW ((i + 1) / argsW.gradient_accumulation))) :=
  ⟨by decide, by decide, by decide, by decide,
   c4_progress_events argsW lossW lrW 2 6 (by decide) (by decide) (by decide) (by decide)⟩

/-- Claim C5: over a non-empty dataset the loop terminates with the
step counter exactly at the budget after exactly `max_train_steps`
micro-batches (so a budget reached mid-pass breaks immediately rather
than finishing the pass), for any fuel of at least `max_train_steps`
passes; and when one pass over the data loader yields fewer batches
than the budget, a single pass is not enough — the loop draws from the
data loader again. -/
theorem c5_termination (args : Args) (lossAt lrAt : Nat → ℚ) (d : Nat)
    (hd : 0 < d) (hb : 0 < args.batch_size) (hN : 0 < args.gradient_accumulation) :
    (∀ fuel, args.max_train_steps ≤ fuel →
      ∃ st tr, trainRun args lossAt lrAt d fuel = some (st, tr)
        ∧ st.global_step = args.max_train_steps
        ∧ (progressEvents tr).length = args.max_train_steps)
    ∧ (numBatches d args.batch_size < args.max_train_steps →
        trainRun args lossAt lrAt d 1 = none) := by
  constructor
  · intro fuel hfuel
    refine ⟨_, _, trainRun_trace args lossAt lrAt d fuel hd hb hN hfuel, rfl, ?_⟩
    rw [progressEvents_append, progressEvents_blocks, progressEvents_final, List.append_nil]
    simp
  · intro hnb
    have hnb1 := numBatches_pos d args.batch_size hd hb
    have hmax : 0 < args.max_train_steps := by omega
    have hrw : runWhile args lossAt lrAt (numBatches d args.batch_size) 1 initState
        = none := by
      rw [initState_eq, runWhile]
      rw [if_pos (show (stateAt args.gradient_accumulation 0).global_step
            < args.max_train_steps from by simpa [stateAt] using hmax)]
      rw [runPass_stateAt args lossAt lrAt hN (numBatches d args.batch_size) 0 hmax]
      show (match runWhile args lossAt lrAt (numBatches d args.batch_size) 0
              (stateAt args.gradient_accumulation
                (min (0 + numBatches d args.batch_size) args.max_train_steps)) with
            | none => none
            | some r2 => some (r2.1,
                blocks args lossAt lrAt 0
                  (min (0 + numBatches d args.batch_size) args.max_train_steps - 0)
                  ++ r2.2))
          = none
      rw [runWhile_fuel_zero args lossAt lrAt _ _
        (show (stateAt args.gradient_accumulation
            (min (0 + numBatches d args.batch_size) args.max_train_steps)).global_step
          < args.max_train_steps from by simp [stateAt]; omega)]
    rw [trainRun, hrw]

/-- Claim C5 witness. -/
theorem c5_witness :
    0 < 2 ∧ 0 < argsW.batch_size ∧ 0 < argsW.gradient_accumulation
    ∧ argsW.max_train_steps ≤ 7
    ∧ (∃ st tr, trainRun argsW lossW lrW 2 7 = some (st, tr)
        ∧ st.global_step = argsW.max_train_steps
        ∧ (progressEvents tr).length = argsW.max_train_steps) :=
  ⟨by decide, by decide, by decide, by decide,
   (c5_termination argsW lossW lrW 2 (by decide) (by decide) (by decide)).1 7 (by decide)⟩

/-- Claim C6: after the loop the final checkpoint is written exactly
once: the trace ends with the final-directory epilogue — mkdir, the
weight save of pytorch_lora_weights.safetensors, a config.json holding
exactly the run's input configuration, then the completion event — at
a point where the step counter has reached the budget, and no
final-directory write or completion event occurs anywhere earlier. -/
theorem c6_final_checkpoint (args : Args) (lossAt lrAt : Nat → ℚ) (d fuel : Nat)
    (hd : 0 < d) (hb : 0 < args.batch_size) (hN : 0 < args.gradient_accumulation)
    (hfuel : args.max_train_steps ≤ fuel) :
    ∃ st tr0, trainRun args lossAt lrAt d fuel
        = some (st, tr0 ++ [Act.mkdirCkpt none, Act.saveWeights none,
                            Act.writeConfig none args, Act.logComplete])
      ∧ st.global_step = args.max_train_steps
      ∧ Act.saveWeights none ∉ tr0
      ∧ (∀ cfg, Act.writeConfig none cfg ∉ tr0)
      ∧ Act.logComplete ∉ tr0 := by
  refine ⟨_, blocks args lossAt lrAt 0 args.max_train_steps,
    trainRun_trace args lossAt lrAt d fuel hd hb hN hfuel, rfl, ?_, ?_, ?_⟩
  · exact saveNone_not_mem_blocks args lossAt lrAt args.max_train_steps 0
  · intro cfg
    exact writeConfig_not_mem_blocks args lossAt lrAt args.max_train_steps 0 cfg
  · exact logComplete_not_mem_blocks args lossAt lrAt args.max_train_steps 0

/-- Claim C6 witness. -/
theorem c6_witness :
    0 < 2 ∧ 0 < argsW.batch_size ∧ 0 < argsW.gradient_accumulation
    ∧ argsW.max_train_steps ≤ 6
    ∧ ∃ st tr0, trainRun argsW lossW lrW 2 6
          = some (st, tr0 ++ [Act.mkdirCkpt none, Act.saveWeights none,
                              Act.writeConfig none argsW, Act.logComplete])
        ∧ st.global_step = argsW.max_train_steps
        ∧ Act.saveWeights none ∉ tr0
        ∧ (∀ cfg, Act.writeConfig none cfg ∉ tr0)
        ∧ Act.logComplete ∉ tr0 :=
  ⟨by decide, by decide, by decide, by decide,
   c6_final_checkpoint argsW lossW lrW 2 6 (by decide) (by decide) (by decide) (by decide)⟩

/-- Claim C7: for a per-sample noise level t in [0,1): the noisy latent
is elementwise (1-t)*noise + t*latent, the discretized timestep equals
⌊t*1000⌋ and lies in [0, 1000), the training target is latent - noise,
and the loss is the mean of elementwise squared prediction errors (the
exact-rational model reflects the full-precision comparison of
line 207). -/
theorem c7_diffusion_objective (t : ℚ) (noise latent pred : List ℚ)
    (h0 : 0 ≤ t) (h1 : t < 1)
    (hnl : noise.length = latent.length) (hpl : pred.length = latent.length) :
    (fluxBatchNumerics t noise latent pred).noisy
        = List.zipWith (fun x y => (1 - t) * x + t * y) noise latent
    ∧ (fluxBatchNumerics t noise latent pred).timestep = ⌊t * 1000⌋
    ∧ 0 ≤ (fluxBatchNumerics t noise latent pred).timestep
    ∧ (fluxBatchNumerics t noise latent pred).timestep < 1000
    ∧ (fluxBatchNumerics t noise latent pred).target
        = List.zipWith (fun y x => y - x) latent noise
    ∧ (fluxBatchNumerics t noise latent pred).loss
        = ((pred.zip (fluxBatchNumerics t noise latent pred).target).map
            (fun p => (p.1 - p.2) ^ 2)).sum / (latent.length : ℚ) := by
  have ht1000 : (0 : ℚ) ≤ t * 1000 := by positivity
  have hts : (fluxBatchNumerics t noise latent pred).timestep = ⌊t * 1000⌋ := by
    show torchLong (t * 1000) = ⌊t * 1000⌋
    rw [torchLong, if_pos ht1000]
  refine ⟨?_, hts, ?_, ?_, ?_, ?_⟩
  · show ((noise.zip latent).map fun p => (1 - t) * p.1 + t * p.2) = _
    exact map_zip_eq_zipWith (fun x y => (1 - t) * x + t * y) noise latent
  · rw [hts]
    exact Int.floor_nonneg.mpr ht1000
  · rw [hts]
    have hlt : t * 1000 < 1000 := by nlinarith
    exact Int.floor_lt.mpr (by push_cast; linarith)
  · show ((latent.zip noise).map fun p => p.1 - p.2) = _
    exact map_zip_eq_zipWith (fun y x => y - x) latent noise
  · show mse_loss pred ((latent.zip noise).map fun p => p.1 - p.2) = _
    rw [mse_loss]
    congr 1
    congr 1
    rw [List.length_zip, List.length_map, List.length_zip]
    omega

/-- Claim C7 witness. -/
theorem c7_witness :
    ((0 : ℚ) ≤ 1 / 2 ∧ (1 : ℚ) / 2 < 1)
    ∧ 0 ≤ (fluxBatchNumerics (1 / 2) [0] [2] [1]).timestep
    ∧ (fluxBatchNumerics (1 / 2) [0] [2] [1]).timestep < 1000 :=
  ⟨⟨by norm_num, by norm_num⟩,
   (c7_diffusion_objective (1 / 2) [0] [2] [1] (by norm_num) (by norm_num)
     rfl rfl).2.2.1,
   (c7_diffusion_objective (1 / 2) [0] [2] [1] (by norm_num) (by norm_num)
     rfl rfl).2.2.2.1⟩

/-- Claim C8 (code bug): with an empty dataset directory the Dataset
length is 0, and the training loop never terminates: each pass over the
empty data loader runs no micro-batch, the step counter stays at
0 < max_train_steps, and no amount of fuel completes the run — the
code neither raises a fatal error nor completes as a no-op, contrary
to the claim's required defined action. -/
theorem c8_empty_dataset_loops (args : Args) (lossAt lrAt : Nat → ℚ)
    (hmax : 0 < args.max_train_steps) :
    ankyDatasetLen [] = 0 ∧ ∀ fuel, trainRun args lossAt lrAt 0 fuel = none := by
  refine ⟨rfl, fun fuel => ?_⟩
  rw [trainRun, numBatches_zero args.batch_size]
  rw [runWhile_zero_nb args lossAt lrAt fuel initState
    (by simpa [initState] using hmax)]

/-- Claim C8 witness. -/
theorem c8_witness :
    0 < argsW.max_train_steps ∧ trainRun argsW lossW lrW 0 5 = none :=
  ⟨by decide, (c8_empty_dataset_loops argsW lossW lrW (by decide)).2 5⟩

/-- Claim C9: with exactly one visible accelerator the startup
placement puts every model subsystem on the primary device and every
cross-subsystem move of the loop has equal source and destination (a
no-op: no transfer occurs); with more than one accelerator, the frozen
VAE and text encoders sit on the secondary device while the trainable
transformer stays on the primary.  The placement is computed once
before the loop and is immutable: `trainRun` takes no placement, so
the loop cannot change it. -/
theorem c9_device_placement (gpu_id secondary_gpu_id : Nat) :
    (planPlacement true 1 gpu_id secondary_gpu_id
        = ⟨Device.cuda gpu_id, Device.cuda gpu_id, Device.cuda gpu_id⟩
      ∧ ∀ m ∈ crossDeviceMoves (planPlacement true 1 gpu_id secondary_gpu_id),
          m.1 = m.2)
    ∧ ∀ dc, 1 < dc →
        (planPlacement true dc gpu_id secondary_gpu_id).transformer
            = Device.cuda gpu_id
        ∧ (planPlacement true dc gpu_id secondary_gpu_id).vae
            = Device.cuda secondary_gpu_id
        ∧ (planPlacement true dc gpu_id secondary_gpu_id).text_encoder
            = Device.cuda secondary_gpu_id := by
  refine ⟨⟨rfl, ?_⟩, ?_⟩
  · intro m hm
    fin_cases hm <;> rfl
  · intro dc hdc
    rw [planPlacement]
    rw [if_pos (by omega : dc > 1)]
    exact ⟨rfl, rfl, rfl⟩

/-- Claim C9 witness. -/
theorem c9_witness :
    1 < 2 ∧ (planPlacement true 2 0 1).transformer = Device.cuda 0
    ∧ (planPlacement true 2 0 1).vae = Device.cuda 1
    ∧ (planPlacement true 2 0 1).text_encoder = Device.cuda 1 :=
  ⟨by decide, ((c9_device_placement 0 1).2 2 (by decide)).1,
   ((c9_device_placement 0 1).2 2 (by decide)).2.1,
   ((c9_device_placement 0 1).2 2 (by decide)).2.2⟩

/-- Claim C10: when the accumulation factor N does not divide the step
budget, a completed run applies exactly ⌊max/N⌋ optimizer steps; every
gradient any optimizer step applies comes from a micro-batch of index
at most N*⌊max/N⌋, so the gradients accumulated during the trailing
(max mod N) micro-batches are never applied by any optimizer step
before the final checkpoint — they are still sitting, unapplied, in
the accumulated-gradient state when the run ends. -/
theorem c10_trailing_gradients (args : Args) (lossAt lrAt : Nat → ℚ) (d fuel : Nat)
    (hd : 0 < d) (hb : 0 < args.batch_size) (hN : 0 < args.gradient_accumulation)
    (hfuel : args.max_train_steps ≤ fuel)
    (hnd : ¬ args.gradient_accumulation ∣ args.max_train_steps) :
    ∃ st tr, trainRun args lossAt lrAt d fuel = some (st, tr)
      ∧ tr.countP isOptStep = args.max_train_steps / args.gradient_accumulation
      ∧ (∀ g, Act.optimizerStep g ∈ tr → ∀ j ∈ g,
          j ≤ args.gradient_accumulation
                * (args.max_train_steps / args.gradient_accumulation))
      ∧ st.grads ≠ []
      ∧ (∀ j ∈ st.grads,
          args.gradient_accumulation
              * (args.max_train_steps / args.gradient_accumulation) < j
          ∧ j ≤ args.max_train_steps) := by
  refine ⟨_, _, trainRun_trace args lossAt lrAt d fuel hd hb hN hfuel,
    ?_, ?_, ?_, ?_⟩
  · rw [List.countP_append, countOpt_blocks args lossAt lrAt hN]
    have hfin : (finalActions args).countP isOptStep = 0 := by
      simp [finalActions, isOptStep]
    rw [hfin]
    simp
  · intro g hg j hj
    rcases List.mem_append.mp hg with h | h
    · obtain ⟨k, hk1, hk2, hk3, hk4⟩ := optPayload_blocks args lossAt lrAt _ 0 g h
      have hdvd : args.gradient_accumulation ∣ k := Nat.dvd_of_mod_eq_zero hk3
      have hq : k / args.gradient_accumulation
          ≤ args.max_train_steps / args.gradient_accumulation :=
        Nat.div_le_div_right (by omega)
      have hkle : k ≤ args.gradient_accumulation
          * (args.max_train_steps / args.gradient_accumulation) :=
        calc k = args.gradient_accumulation * (k / args.gradient_accumulation) :=
              (Nat.mul_div_cancel' hdvd).symm
          _ ≤ args.gradient_accumulation
                * (args.max_train_steps / args.gradient_accumulation) :=
              Nat.mul_le_mul_left _ hq
      exact le_trans (hk4 j hj) hkle
    · simp [finalActions] at h
  · show gradsAt args.gradient_accumulation args.max_train_steps ≠ []
    have hmod : args.max_train_steps % args.gradient_accumulation ≠ 0 :=
      fun hc => hnd (Nat.dvd_of_mod_eq_zero hc)
    intro hc
    have hlen := congrArg List.length hc
    rw [gradsAt] at hlen
    simp at hlen
    exact hmod hlen
  · intro j hj
    exact gradsAt_bounds args.gradient_accumulation args.max_train_steps j hj

/-- Claim C10 witness. -/
theorem c10_witness :
    0 < 2 ∧ 0 < argsW2.batch_size ∧ 0 < argsW2.gradient_accumulation
    ∧ argsW2.max_train_steps ≤ 6
    ∧ ¬ argsW2.gradient_accumulation ∣ argsW2.max_train_steps
    ∧ ∃ st tr, trainRun argsW2 lossW lrW 2 6 = some (st, tr)
        ∧ tr.countP isOptStep
            = argsW2.max_train_steps / argsW2.gradient_accumulation
        ∧ (∀ g, Act.optimizerStep g ∈ tr → ∀ j ∈ g,
            j ≤ argsW2.gradient_accumulation
                  * (argsW2.max_train_steps / argsW2.gradient_accumulation))
        ∧ st.grads ≠ []
        ∧ (∀ j ∈ st.grads,
            argsW2.gradient_accumulation
                * (argsW2.max_train_steps / argsW2.gradient_accumulation) < j
            ∧ j ≤ argsW2.max_train_steps) :=
  ⟨by decide, by decide, by decide, by decide, by decide,
   c10_trailing_gradients argsW2 lossW lrW 2 6 (by decide) (by decide) (by decide)
     (by decide) (by decide)⟩
